import Mathlib

/-!
Verification of the mpddq daemon (src/mpddq.py) against its specification.

The development shallowly embeds the parts of the program the claims are
about:

* a YAML-like value type with Python-dict (key-order-insensitive) equality,
  realized by a canonicalization function that recursively sorts dictionary
  entries by key;
* the configuration loader (Mpddq._sync_load_config): default merging,
  normalization and the write-back decision;
* the config-change classifier (Mpddq.keep_watching_config_file);
* the per-partition monitor (PartitionMonitor): the dynamic-mode gate
  (is_dynamic_enabled), queue trimming (remove_old_tracks), queue filling
  (add_new_tracks with its track picker), partition joining
  (enter_partition) and the run guard.

Randomness (random.choice, random.choices) is modelled by explicit oracle
arguments supplying the draws; the asynchronous MPD connection is modelled
by explicit state (the queue contents, successive status snapshots, and
per-command server responses).
-/

namespace Mpddq

/-- YAML values as loaded by yaml.safe_load.  Dictionaries are association
lists in file order; Python dict equality is key-order-insensitive and is
recovered below via canonicalization (see canon / pyEq).  The constructor
inf models the float infinity that get_partition_config_defaults uses for
max-hist-len. -/
inductive Yaml where
  | nul : Yaml
  | b : Bool → Yaml
  | i : Int → Yaml
  | inf : Yaml
  | s : String → Yaml
  | arr : List Yaml → Yaml
  | dict : List (String × Yaml) → Yaml
deriving Repr

mutual
/-- Structural (order-sensitive) boolean equality on Yaml values. -/
def Yaml.beq : Yaml → Yaml → Bool
  | .nul, .nul => true
  | .b x, .b y => x == y
  | .i x, .i y => x == y
  | .inf, .inf => true
  | .s x, .s y => x == y
  | .arr xs, .arr ys => Yaml.beqList xs ys
  | .dict xs, .dict ys => Yaml.beqPairs xs ys
  | _, _ => false
/-- Boolean equality on lists of Yaml values. -/
def Yaml.beqList : List Yaml → List Yaml → Bool
  | [], [] => true
  | x :: xs, y :: ys => Yaml.beq x y && Yaml.beqList xs ys
  | _, _ => false
/-- Boolean equality on association lists of Yaml values. -/
def Yaml.beqPairs : List (String × Yaml) → List (String × Yaml) → Bool
  | [], [] => true
  | (k, v) :: xs, (l, w) :: ys => k == l && Yaml.beq v w && Yaml.beqPairs xs ys
  | _, _ => false
end

/-- Lookup in an association list; models Python dict indexing (first
binding wins, which coincides with dict behaviour on duplicate-free key
lists). -/
def alookup {α : Type} : List (String × α) → String → Option α
  | [], _ => none
  | (k, v) :: kvs, key => if k = key then some v else alookup kvs key

/-- Insert one key-value pair into a key-sorted association list. -/
def insertSorted (p : String × Yaml) : List (String × Yaml) → List (String × Yaml)
  | [] => [p]
  | q :: qs => if p.1 ≤ q.1 then p :: q :: qs else q :: insertSorted p qs

/-- Sort an association list by key (insertion sort). -/
def sortPairs : List (String × Yaml) → List (String × Yaml)
  | [] => []
  | p :: ps => insertSorted p (sortPairs ps)

mutual
/-- Canonical form of a Yaml value: every dictionary is recursively sorted
by key.  Two duplicate-free dictionaries are equal as Python dicts exactly
when their canonical forms are structurally equal. -/
def canon : Yaml → Yaml
  | .arr xs => .arr (canonList xs)
  | .dict kvs => .dict (sortPairs (canonPairs kvs))
  | y => y
/-- Canonicalize every element of a list of Yaml values. -/
def canonList : List Yaml → List Yaml
  | [] => []
  | x :: xs => canon x :: canonList xs
/-- Canonicalize every value of an association list. -/
def canonPairs : List (String × Yaml) → List (String × Yaml)
  | [] => []
  | (k, v) :: kvs => (k, canon v) :: canonPairs kvs
end

/-- Python equality of Yaml values (key-order-insensitive on dicts). -/
def pyEq (a b : Yaml) : Prop := canon a = canon b

/-- Boolean version of pyEq, used where the code branches on a comparison. -/
def pyEqB (a b : Yaml) : Bool := Yaml.beq (canon a) (canon b)

/-! ## Configuration loading (Mpddq._sync_load_config) -/

/-- Top-level configuration defaults, from get_config_defaults. -/
def get_config_defaults : List (String × Yaml) :=
  [("host", .s "localhost"), ("port", .i 6600),
   ("partitions", .dict [("default", .dict [])])]

/-- Per-partition configuration defaults, from get_partition_config_defaults. -/
def get_partition_config_defaults : List (String × Yaml) :=
  [("enabled", .b true), ("min-len", .i 10), ("max-hist-len", .inf),
   ("clear-when-stopped", .b false), ("source-playlists", .dict [])]

/-- Normalization of one partition entry: start from the defaults and
overwrite each known key that the raw parameters provide; unknown raw keys
are dropped.  A non-dict raw value makes the Python loop raise (TypeError
on indexing), modelled by none. -/
def normalize_partition : Yaml → Option Yaml
  | .dict kvs =>
      some (.dict (get_partition_config_defaults.map
        (fun kd => (kd.1, (alookup kvs kd.1).getD kd.2))))
  | _ => none

/-- Normalization of the partitions table, entry by entry in file order. -/
def normalize_partitions : List (String × Yaml) → Option (List (String × Yaml))
  | [] => some []
  | (n, v) :: rest =>
      match normalize_partition v, normalize_partitions rest with
      | some w, some ws => some ((n, w) :: ws)
      | _, _ => none

/-- Default-merging normalization of a raw config document: for each key of
get_config_defaults take the raw value when present (KeyError keeps the
default), then rebuild every partition entry from the partition defaults.
The result always has exactly the keys host, port, partitions in that
order.  A non-dict document or partitions table makes the Python code
raise, modelled by none. -/
def normalize (raw : Yaml) : Option Yaml :=
  match raw with
  | .dict kvs =>
      let host := (alookup kvs "host").getD (.s "localhost")
      let port := (alookup kvs "port").getD (.i 6600)
      match (alookup kvs "partitions").getD (.dict [("default", .dict [])]) with
      | .dict parts =>
          (normalize_partitions parts).map
            (fun ps => .dict [("host", host), ("port", port), ("partitions", .dict ps)])
      | _ => none
  | _ => none

/-- Model of Mpddq._sync_load_config on an already-parsed document: returns
the normalized config together with whether _sync_store_config was called,
which happens exactly when the normalized config differs (as a Python dict)
from the raw input. -/
def sync_load_config (raw : Yaml) : Option (Yaml × Bool) :=
  (normalize raw).map (fun c => (c, !pyEqB c raw))

/-- Model of _sync_load_config including the file read: a missing file
(FileNotFoundError) is treated as the empty document. -/
def load_config_file (contents : Option Yaml) : Option (Yaml × Bool) :=
  sync_load_config (contents.getD (.dict []))

/-! ## Config-change classification (Mpddq.keep_watching_config_file) -/

/-- The two restart exceptions raised by the config watcher. -/
inductive ConfigChangeSignal where
  | bigConfigChange : ConfigChangeSignal
  | partitionOnlyConfigChange : ConfigChangeSignal
deriving DecidableEq, Repr

/-- Entries of a Yaml dictionary (items() on the underlying dict). -/
def Yaml.entries : Yaml → List (String × Yaml)
  | .dict kvs => kvs
  | _ => []

/-- Keys whose values differ between the new config and the previous one,
in the key order of the new config: the comprehension
{k: v for k, v in self.config.items() if v != prev_config[k]}.
Both arguments are normalized documents, so every key of the new config is
present in the previous one; a hypothetically missing key (which would make
Python raise KeyError) is counted as differing. -/
def config_diff_keys (prev_config cfg : Yaml) : List String :=
  (cfg.entries.filter (fun kv =>
    match alookup prev_config.entries kv.1 with
    | some w => !pyEqB kv.2 w
    | none => true)).map Prod.fst

/-- The signal raised by keep_watching_config_file after a reload: no signal
when the reloaded config equals the previous one; PartitionOnlyConfigChange
when the differing top-level keys are exactly [partitions]; otherwise
BigConfigChange. -/
def keep_watching_config_file_signal (prev_config cfg : Yaml) : Option ConfigChangeSignal :=
  if pyEqB cfg prev_config then none
  else if config_diff_keys prev_config cfg = ["partitions"] then
    some .partitionOnlyConfigChange
  else some .bigConfigChange

/-! ## Partition monitor data model -/

/-- The max-hist-len config value: an integer or float infinity. -/
inductive ExtInt where
  | fin : Int → ExtInt
  | inf : ExtInt
deriving DecidableEq, Repr

/-- The source-playlists config value as dispatched on by
make_stored_playlist_picker: None, a single name, a list of names, or a
name-to-weight mapping. -/
inductive SourceSpec where
  | nul : SourceSpec
  | str : String → SourceSpec
  | list : List String → SourceSpec
  | dict : List (String × Nat) → SourceSpec
deriving DecidableEq, Repr

/-- Python truthiness of a source-playlists value (the test if not src). -/
def SourceSpec.truthy : SourceSpec → Bool
  | .nul => false
  | .str s => !(s == "")
  | .list xs => !xs.isEmpty
  | .dict kvs => !kvs.isEmpty

/-- One partition configuration with the effective (typed) values the
monitor reads from the normalized config dict. -/
structure PartitionConfig where
  enabled : Bool
  min_len : Int
  max_hist_len : ExtInt
  clear_when_stopped : Bool
  source_playlists : SourceSpec
deriving DecidableEq, Repr

/-- One MPD status snapshot, keeping only the keys the monitor reads.  Each
field is optional: MPD may omit any of them, and reading a missing key
raises KeyError.  The integer-valued fields model int(status[key]). -/
structure PlayerStatus where
  random : Option Nat
  «repeat» : Option Nat
  single : Option Nat
  state : Option String
  song : Option Nat
  playlistlength : Option Nat
deriving DecidableEq, Repr

/-- A cached stored playlist, as held in Mpddq.stored_playlists. -/
structure StoredPlaylist where
  last_modified : String
  tracks : List String
deriving DecidableEq, Repr

/-! ## Dynamic-mode gate (PartitionMonitor.is_dynamic_enabled) -/

/-- The dynamic-mode gate.  Mirrors the Python control flow exactly,
including the short-circuit of the conjunction
int(status[repeat]) and not int(status[single]): when repeat is 0 the
single key is never read, so its absence cannot raise KeyError there.
A KeyError from any key that is actually read returns False. -/
def is_dynamic_enabled (status : PlayerStatus) : Bool :=
  match status.random with
  | none => false
  | some r =>
    if r ≠ 0 then false
    else
      match status.«repeat» with
      | none => false
      | some rp =>
        if rp = 0 then true
        else
          match status.single with
          | none => false
          | some sg => sg ≠ 0

/-! ## Queue trimming (PartitionMonitor.remove_old_tracks) -/

/-- What one trim step does to the queue. -/
inductive TrimAction where
  | cleared : TrimAction
  | deleted : Int → TrimAction
  | noop : TrimAction
deriving DecidableEq, Repr

/-- The clear-when-stopped test, with its Python evaluation order: when the
option is set, status[state] is read first (KeyError when absent); when the
current state is stop, prev_status[state] is read (KeyError when absent).
An uncaught KeyError is modelled as an error value. -/
def clear_when_stopped_check (config : PartitionConfig)
    (status prev_status : PlayerStatus) : Except String Bool :=
  if config.clear_when_stopped then
    match status.state with
    | none => .error "state"
    | some st =>
      if st = "stop" then
        match prev_status.state with
        | none => .error "state"
        | some pst => .ok (decide (pst ≠ "stop"))
      else .ok false
  else .ok false

/-- The numeric part of the trim step: read status[song] (a caught
KeyError skips the trim) and delete the range [0, song - max-hist-len)
when that count is positive.  Subtracting float infinity yields minus
infinity, never positive, so max-hist-len = inf never deletes. -/
def numeric_trim (config : PartitionConfig) (status : PlayerStatus) :
    Except String TrimAction :=
  match status.song with
  | none => .ok .noop
  | some current_track =>
    match config.max_hist_len with
    | .inf => .ok .noop
    | .fin m =>
      let n_tracks_to_remove : Int := (current_track : Int) - m
      if n_tracks_to_remove > 0 then .ok (.deleted n_tracks_to_remove)
      else .ok .noop

/-- One trim step: when clear-when-stopped fires, clear the queue and
return (skipping the numeric trim); otherwise run the numeric trim. -/
def remove_old_tracks (config : PartitionConfig)
    (status prev_status : PlayerStatus) : Except String TrimAction :=
  match clear_when_stopped_check config status prev_status with
  | .error e => .error e
  | .ok true => .ok .cleared
  | .ok false => numeric_trim config status

/-- Effect of a trim action on the queue contents: mpd.clear empties it and
mpd.delete((0, n)) removes exactly the entries at indices [0, n),
preserving the relative order of the rest. -/
def apply_trim (queue : List String) : TrimAction → List String
  | .cleared => []
  | .deleted n => queue.drop n.toNat
  | .noop => queue

/-! ## Track picking (make_stored_playlist_picker, choose_new_track) -/

/-- The three closure shapes produced by make_stored_playlist_picker,
reified as a tagged value. -/
inductive Picker where
  | const : String → Picker
  | uniform : List String → Picker
  | weighted : List (String × Nat) → Picker
deriving DecidableEq, Repr

/-- make_stored_playlist_picker: a falsy source-playlists value yields no
picker; a string always resolves to itself; a list is a uniform choice; a
mapping is a weighted choice. -/
def make_stored_playlist_picker (src : SourceSpec) : Option Picker :=
  if src.truthy then
    match src with
    | .nul => none
    | .str s => some (.const s)
    | .list xs => some (.uniform xs)
    | .dict kvs => some (.weighted kvs)
  else none

/-- Distributional model of random.choices with weights: walk the
cumulative weights with a draw reduced modulo the total weight. -/
def weighted_pick : List (String × Nat) → Nat → String
  | [], _ => ""
  | (k, w) :: rest, r => if r < w then k else weighted_pick rest (r - w)

/-- Resolve one playlist name from a picker, consuming one random draw. -/
def Picker.resolve : Picker → Nat → String
  | .const s, _ => s
  | .uniform xs, r => xs.getD (r % xs.length) ""
  | .weighted kvs, r =>
      weighted_pick kvs (r % max 1 (kvs.foldl (fun acc kw => acc + kw.2) 0))

/-- choose_new_track: repeatedly resolve a playlist name and draw a track
from its cached contents; a missing playlist (KeyError) or an empty one
(IndexError from random.choice) logs, sleeps 5 units and retries.  Each
attempt consumes one (name draw, track draw) pair; the Python loop is
unbounded, so running out of supplied draws (none) models an infinite
retry loop. -/
def choose_new_track (picker : Picker)
    (stored_playlists : List (String × StoredPlaylist)) :
    List (Nat × Nat) → Option String
  | [] => none
  | (rname, rtrack) :: rest =>
    let pl_name := picker.resolve rname
    match alookup stored_playlists pl_name with
    | none => choose_new_track picker stored_playlists rest
    | some pl =>
      if pl.tracks.isEmpty then choose_new_track picker stored_playlists rest
      else some (pl.tracks.getD (rtrack % pl.tracks.length) "")

/-! ## Queue filling (PartitionMonitor.add_new_tracks) -/

/-- add_new_tracks: while the reported queue length is below min-len,
choose one track and append it.  The claims condition on each append
increasing the reported length by one, so the re-fetched playlistlength is
modelled by the running length counter.  The oracle supplies the random
draws available to the choose_new_track attempt loop at each length; none
models a fill pass whose picking loop never terminates. -/
def add_new_tracks (min_len : Int) (picker : Picker)
    (stored_playlists : List (String × StoredPlaylist))
    (oracle : Nat → List (Nat × Nat)) (len0 : Nat) : Option (List String) :=
  if (len0 : Int) < min_len then
    match choose_new_track picker stored_playlists (oracle len0) with
    | none => none
    | some t =>
        (add_new_tracks min_len picker stored_playlists oracle (len0 + 1)).map
          (fun ts => t :: ts)
  else some []
termination_by (min_len - len0).toNat
decreasing_by omega

/-! ## One reconciliation pass (PartitionMonitor.update_queue) -/

/-- Outcome of one reconciliation pass. -/
inductive PassOutcome where
  | suspended : PassOutcome
  | fatalKeyError : String → PassOutcome
  | acted : TrimAction → List String → PassOutcome
deriving DecidableEq, Repr

/-- update_queue: when the dynamic gate is closed the pass does nothing;
otherwise trim then fill.  An uncaught KeyError from the trim step is
fatal; the fill step starts from the live queue length left by the trim.
A none result models a fill whose picking loop never terminates. -/
def update_queue (config : PartitionConfig) (status prev_status : PlayerStatus)
    (queue : List String) (picker : Picker)
    (stored_playlists : List (String × StoredPlaylist))
    (oracle : Nat → List (Nat × Nat)) : Option PassOutcome :=
  if is_dynamic_enabled status then
    match remove_old_tracks config status prev_status with
    | .error k => some (.fatalKeyError k)
    | .ok a =>
      match add_new_tracks config.min_len picker stored_playlists oracle
          (apply_trim queue a).length with
      | none => none
      | some ts => some (.acted a ts)
  else some .suspended

/-! ## Partition joining (PartitionMonitor.enter_partition) -/

/-- Response of the MPD server to one partition or newpartition command:
success, ACK with errno NO_EXIST, ACK with errno EXIST, or an ACK with any
other errno. -/
inductive CmdResult where
  | ok : CmdResult
  | ackNoExist : CmdResult
  | ackExist : CmdResult
  | ackOther : Nat → CmdResult
deriving DecidableEq, Repr

/-- How enter_partition terminates. -/
inductive JoinResult where
  | joined : JoinResult
  | errored : CmdResult → JoinResult
  | failedRuntimeError : JoinResult
deriving DecidableEq, Repr

/-- One round of the select/create alternation, with the remaining loop
budget.  sel i and cre i are the server responses to the i-th partition
select and the i-th newpartition attempt.  Returns the outcome and the
number of server commands issued.  A select error other than NO_EXIST and
a create error other than EXIST are re-raised immediately. -/
def enter_partition_go (sel cre : Nat → CmdResult) (i : Nat) :
    Nat → JoinResult × Nat
  | 0 => (.failedRuntimeError, 0)
  | n + 1 =>
    match sel i with
    | .ok => (.joined, 1)
    | .ackNoExist =>
      match cre i with
      | .ok =>
          let r := enter_partition_go sel cre (i + 1) n
          (r.1, r.2 + 2)
      | .ackExist =>
          let r := enter_partition_go sel cre (i + 1) n
          (r.1, r.2 + 2)
      | e => (.errored e, 2)
    | e => (.errored e, 1)

/-- enter_partition: for _ in range(3) around the select/create
alternation; exhausting the three rounds raises RuntimeError. -/
def enter_partition (sel cre : Nat → CmdResult) : JoinResult × Nat :=
  enter_partition_go sel cre 0 3

/-! ## The monitor main loop (PartitionMonitor.run) -/

/-- Externally visible effects of one monitor run. -/
inductive Effect where
  | connect : Effect
  | partitionJoined : Effect
  | partitionJoinFailed : JoinResult → Effect
  | pass : PassOutcome → Effect
  | stuck : Effect
deriving DecidableEq, Repr

/-- Queue contents after one pass outcome. -/
def apply_pass (queue : List String) : PassOutcome → List String
  | .suspended => queue
  | .fatalKeyError _ => queue
  | .acted a ts => apply_trim queue a ++ ts

/-- The idle loop of run: each server notification refetches the status
(prev_status keeps the prior snapshot) and runs one pass.  A fatal
KeyError ends the coroutine; a never-terminating fill is stuck. -/
def run_loop (config : PartitionConfig) (picker : Picker)
    (stored_playlists : List (String × StoredPlaylist))
    (oracle : Nat → List (Nat × Nat)) (status : PlayerStatus)
    (queue : List String) : List PlayerStatus → List Effect
  | [] => []
  | st :: rest =>
    match update_queue config st status queue picker stored_playlists oracle with
    | none => [.stuck]
    | some (.fatalKeyError k) => [.pass (.fatalKeyError k)]
    | some p => .pass p :: run_loop config picker stored_playlists oracle st
        (apply_pass queue p) rest

/-- PartitionMonitor.run, as the list of effects it performs given the
environment: the server responses to the join commands, the initial status
snapshot, the statuses fetched after each notification, the initial queue,
the playlist cache and the random draws.  A disabled partition or an
absent picker returns before connecting. -/
def PartitionMonitor_run (config : PartitionConfig) (sel cre : Nat → CmdResult)
    (status0 : PlayerStatus) (statuses : List PlayerStatus)
    (queue0 : List String)
    (stored_playlists : List (String × StoredPlaylist))
    (oracle : Nat → List (Nat × Nat)) : List Effect :=
  if !config.enabled ∨ (make_stored_playlist_picker config.source_playlists) = none then
    []
  else
    match make_stored_playlist_picker config.source_playlists with
    | none => []
    | some picker =>
      .connect ::
        match enter_partition sel cre with
        | (.joined, _) =>
          .partitionJoined ::
            match update_queue config status0 status0 queue0 picker
                stored_playlists oracle with
            | none => [.stuck]
            | some (.fatalKeyError k) => [.pass (.fatalKeyError k)]
            | some p => .pass p :: run_loop config picker stored_playlists oracle
                status0 (apply_pass queue0 p) statuses
        | (r, _) => [.partitionJoinFailed r]

/-! ## Observation helpers used by the claim statements -/

/-- Top-level keys of a document, in order. -/
def topKeys : Yaml → List String
  | .dict kvs => kvs.map Prod.fst
  | _ => []

/-- Top-level value of a document at a key (defaulting to null). -/
def topVal (c : Yaml) (k : String) : Yaml :=
  (alookup c.entries k).getD .nul

/-- The partitions table of a document (empty when absent or not a dict). -/
def partitionsOf (c : Yaml) : List (String × Yaml) :=
  match alookup c.entries "partitions" with
  | some (.dict ps) => ps
  | _ => []

/-- The known per-partition configuration keys in normalization order. -/
def partition_keys : List String :=
  ["enabled", "min-len", "max-hist-len", "clear-when-stopped", "source-playlists"]

/-- Well-formedness of a raw document as produced by yaml.safe_load: the
key lists of the dictionaries the loader touches are duplicate-free
(Python dicts cannot hold duplicate keys). -/
def rawWFB (raw : Yaml) : Bool :=
  match raw with
  | .dict kvs =>
      decide (kvs.map Prod.fst).Nodup &&
      (match alookup kvs "partitions" with
       | some (.dict parts) =>
           decide (parts.map Prod.fst).Nodup &&
           parts.all (fun pv =>
             match pv.2 with
             | .dict d => decide (d.map Prod.fst).Nodup
             | _ => true)
       | _ => true)
  | _ => true

/-- The fully-defaulted normalized configuration, as produced from an
empty (or missing) config file. -/
def defaults_normalized : Yaml :=
  .dict [("host", .s "localhost"), ("port", .i 6600),
         ("partitions", .dict [("default", .dict
            [("enabled", .b true), ("min-len", .i 10), ("max-hist-len", .inf),
             ("clear-when-stopped", .b false), ("source-playlists", .dict [])])])]

/-! # Theorems

First the generic facts about the embedding (boolean equality, sorting,
canonicalization, lookups), then the shape and idempotence lemmas for the
configuration loader, then one theorem per claim with its witness or
counterexample.
-/

mutual
theorem Yaml.beq_iff_eq : ∀ a b : Yaml, Yaml.beq a b = true ↔ a = b
  | .nul, .nul => by simp [Yaml.beq]
  | .nul, .b _ => by simp [Yaml.beq]
  | .nul, .i _ => by simp [Yaml.beq]
  | .nul, .inf => by simp [Yaml.beq]
  | .nul, .s _ => by simp [Yaml.beq]
  | .nul, .arr _ => by simp [Yaml.beq]
  | .nul, .dict _ => by simp [Yaml.beq]
  | .b _, .nul => by simp [Yaml.beq]
  | .b x, .b y => by simp [Yaml.beq]
  | .b _, .i _ => by simp [Yaml.beq]
  | .b _, .inf => by simp [Yaml.beq]
  | .b _, .s _ => by simp [Yaml.beq]
  | .b _, .arr _ => by simp [Yaml.beq]
  | .b _, .dict _ => by simp [Yaml.beq]
  | .i _, .nul => by simp [Yaml.beq]
  | .i _, .b _ => by simp [Yaml.beq]
  | .i x, .i y => by simp [Yaml.beq]
  | .i _, .inf => by simp [Yaml.beq]
  | .i _, .s _ => by simp [Yaml.beq]
  | .i _, .arr _ => by simp [Yaml.beq]
  | .i _, .dict _ => by simp [Yaml.beq]
  | .inf, .nul => by simp [Yaml.beq]
  | .inf, .b _ => by simp [Yaml.beq]
  | .inf, .i _ => by simp [Yaml.beq]
  | .inf, .inf => by simp [Yaml.beq]
  | .inf, .s _ => by simp [Yaml.beq]
  | .inf, .arr _ => by simp [Yaml.beq]
  | .inf, .dict _ => by simp [Yaml.beq]
  | .s _, .nul => by simp [Yaml.beq]
  | .s _, .b _ => by simp [Yaml.beq]
  | .s _, .i _ => by simp [Yaml.beq]
  | .s _, .inf => by simp [Yaml.beq]
  | .s x, .s y => by simp [Yaml.beq]
  | .s _, .arr _ => by simp [Yaml.beq]
  | .s _, .dict _ => by simp [Yaml.beq]
  | .arr _, .nul => by simp [Yaml.beq]
  | .arr _, .b _ => by simp [Yaml.beq]
  | .arr _, .i _ => by simp [Yaml.beq]
  | .arr _, .inf => by simp [Yaml.beq]
  | .arr _, .s _ => by simp [Yaml.beq]
  | .arr x, .arr y => by simp [Yaml.beq, Yaml.beqList_iff_eq x y]
  | .arr _, .dict _ => by simp [Yaml.beq]
  | .dict _, .nul => by simp [Yaml.beq]
  | .dict _, .b _ => by simp [Yaml.beq]
  | .dict _, .i _ => by simp [Yaml.beq]
  | .dict _, .inf => by simp [Yaml.beq]
  | .dict _, .s _ => by simp [Yaml.beq]
  | .dict _, .arr _ => by simp [Yaml.beq]
  | .dict x, .dict y => by simp [Yaml.beq, Yaml.beqPairs_iff_eq x y]
theorem Yaml.beqList_iff_eq : ∀ xs ys : List Yaml, Yaml.beqList xs ys = true ↔ xs = ys
  | [], [] => by simp [Yaml.beqList]
  | x :: xs, y :: ys => by
      simp [Yaml.beqList, Yaml.beq_iff_eq x y, Yaml.beqList_iff_eq xs ys]
  | [], _ :: _ => by simp [Yaml.beqList]
  | _ :: _, [] => by simp [Yaml.beqList]
theorem Yaml.beqPairs_iff_eq : ∀ xs ys : List (String × Yaml),
    Yaml.beqPairs xs ys = true ↔ xs = ys
  | [], [] => by simp [Yaml.beqPairs]
  | (k, v) :: xs, (l, w) :: ys => by
      simp [Yaml.beqPairs, Yaml.beq_iff_eq v w, Yaml.beqPairs_iff_eq xs ys]
  | [], _ :: _ => by simp [Yaml.beqPairs]
  | _ :: _, [] => by simp [Yaml.beqPairs]
end


theorem pyEqB_iff (a b : Yaml) : pyEqB a b = true ↔ pyEq a b := by
  simp [pyEqB, pyEq, Yaml.beq_iff_eq]

theorem pyEqB_self (a : Yaml) : pyEqB a a = true := by
  simp [pyEqB, Yaml.beq_iff_eq]

/-! ## Sorting and lookup lemmas -/

theorem insertSorted_perm (p : String × Yaml) (l : List (String × Yaml)) :
    (insertSorted p l).Perm (p :: l) := by
  induction l with
  | nil => simp [insertSorted]
  | cons q qs ih =>
    simp only [insertSorted]
    split
    · exact List.Perm.refl _
    · exact (ih.cons q).trans (List.Perm.swap p q qs)

theorem sortPairs_perm (l : List (String × Yaml)) : (sortPairs l).Perm l := by
  induction l with
  | nil => simp [sortPairs]
  | cons p ps ih =>
    exact (insertSorted_perm p (sortPairs ps)).trans (ih.cons p)

theorem canonPairs_keys (l : List (String × Yaml)) :
    (canonPairs l).map Prod.fst = l.map Prod.fst := by
  induction l with
  | nil => simp [canonPairs]
  | cons p ps ih => obtain ⟨k, v⟩ := p; simp [canonPairs, ih]

theorem alookup_canonPairs (l : List (String × Yaml)) (k : String) :
    alookup (canonPairs l) k = (alookup l k).map canon := by
  induction l with
  | nil => simp [canonPairs, alookup]
  | cons p ps ih =>
    obtain ⟨k1, v1⟩ := p
    simp only [canonPairs, alookup]
    split <;> simp [ih]

theorem alookup_insertSorted (p : String × Yaml) (m : List (String × Yaml))
    (k : String) (h : p.1 ∉ m.map Prod.fst) :
    alookup (insertSorted p m) k = if p.1 = k then some p.2 else alookup m k := by
  induction m with
  | nil => simp [insertSorted, alookup]
  | cons q qs ih =>
    simp only [List.map_cons, List.mem_cons] at h
    push_neg at h
    simp only [insertSorted]
    split
    · simp [alookup]
    · simp only [alookup, ih h.2]
      by_cases hq : q.1 = k
      · have : ¬ p.1 = k := by
          intro hp; exact h.1 (hp.trans hq.symm)
        simp [hq, this]
      · simp [hq]

theorem alookup_sortPairs (l : List (String × Yaml)) (k : String)
    (h : (l.map Prod.fst).Nodup) : alookup (sortPairs l) k = alookup l k := by
  induction l with
  | nil => simp [sortPairs]
  | cons p ps ih =>
    simp only [List.map_cons, List.nodup_cons] at h
    have hmem : p.1 ∉ (sortPairs ps).map Prod.fst := by
      intro hin
      exact h.1 (((sortPairs_perm ps).map Prod.fst).mem_iff.mp hin)
    rw [sortPairs, alookup_insertSorted p (sortPairs ps) k hmem, ih h.2]
    simp [alookup]

/-- Equality of the canonical forms of two duplicate-free dictionaries
forces the canonical forms of the values at every key to agree. -/
theorem canon_dict_eq_alookup {L1 L2 : List (String × Yaml)}
    (h : canon (.dict L1) = canon (.dict L2))
    (h1 : (L1.map Prod.fst).Nodup) (h2 : (L2.map Prod.fst).Nodup) (k : String) :
    (alookup L1 k).map canon = (alookup L2 k).map canon := by
  simp only [canon, Yaml.dict.injEq] at h
  have e1 : alookup (sortPairs (canonPairs L1)) k = (alookup L1 k).map canon := by
    rw [alookup_sortPairs _ _ (by rw [canonPairs_keys]; exact h1), alookup_canonPairs]
  have e2 : alookup (sortPairs (canonPairs L2)) k = (alookup L2 k).map canon := by
    rw [alookup_sortPairs _ _ (by rw [canonPairs_keys]; exact h2), alookup_canonPairs]
  rw [← e1, ← e2, h]

/-- Equality of canonical forms of two dictionaries forces their key lists
to be permutations of each other; in particular key membership agrees. -/
theorem canon_dict_eq_keys {L1 L2 : List (String × Yaml)}
    (h : canon (.dict L1) = canon (.dict L2)) (k : String) :
    k ∈ L1.map Prod.fst ↔ k ∈ L2.map Prod.fst := by
  simp only [canon, Yaml.dict.injEq] at h
  have p1 : ((sortPairs (canonPairs L1)).map Prod.fst).Perm (L1.map Prod.fst) := by
    have := (sortPairs_perm (canonPairs L1)).map Prod.fst
    rwa [canonPairs_keys] at this
  have p2 : ((sortPairs (canonPairs L2)).map Prod.fst).Perm (L2.map Prod.fst) := by
    have := (sortPairs_perm (canonPairs L2)).map Prod.fst
    rwa [canonPairs_keys] at this
  rw [← p1.mem_iff, ← p2.mem_iff, h]

/-! ## Shape and idempotence of normalization -/

theorem normalize_partition_shape {v w : Yaml} (h : normalize_partition v = some w) :
    ∃ e ml mh cs sp, w = .dict [("enabled", e), ("min-len", ml), ("max-hist-len", mh),
      ("clear-when-stopped", cs), ("source-playlists", sp)] := by
  cases v <;> simp [normalize_partition, get_partition_config_defaults] at h
  exact ⟨_, _, _, _, _, h.symm⟩

theorem normalize_partition_idem {v w : Yaml} (h : normalize_partition v = some w) :
    normalize_partition w = some w := by
  obtain ⟨e, ml, mh, cs, sp, rfl⟩ := normalize_partition_shape h
  simp +decide [normalize_partition, get_partition_config_defaults, alookup]

theorem normalize_partitions_idem :
    ∀ {parts parts2 : List (String × Yaml)},
      normalize_partitions parts = some parts2 →
      normalize_partitions parts2 = some parts2 := by
  intro parts
  induction parts with
  | nil =>
    intro parts2 h
    simp only [normalize_partitions] at h
    obtain rfl := Option.some.inj h
    simp [normalize_partitions]
  | cons nv rest ih =>
    intro parts2 h
    obtain ⟨n, v⟩ := nv
    simp only [normalize_partitions] at h
    cases hv : normalize_partition v with
    | none => rw [hv] at h; simp at h
    | some w =>
      cases hr : normalize_partitions rest with
      | none => rw [hv, hr] at h; simp at h
      | some ws =>
        rw [hv, hr] at h
        obtain rfl := Option.some.inj h
        simp [normalize_partitions, normalize_partition_idem hv, ih hr]

theorem normalize_partitions_alookup :
    ∀ {parts parts2 : List (String × Yaml)},
      normalize_partitions parts = some parts2 → ∀ n : String,
      alookup parts2 n = (alookup parts n).bind normalize_partition := by
  intro parts
  induction parts with
  | nil =>
    intro parts2 h n
    simp only [normalize_partitions] at h
    obtain rfl := Option.some.inj h
    simp [alookup]
  | cons nv rest ih =>
    intro parts2 h n
    obtain ⟨nm, v⟩ := nv
    simp only [normalize_partitions] at h
    cases hv : normalize_partition v with
    | none => rw [hv] at h; simp at h
    | some w =>
      cases hr : normalize_partitions rest with
      | none => rw [hv, hr] at h; simp at h
      | some ws =>
        rw [hv, hr] at h
        obtain rfl := Option.some.inj h
        simp only [alookup]
        by_cases hn : nm = n <;> simp [hn, hv, ih hr]

theorem normalize_partitions_mem :
    ∀ {parts parts2 : List (String × Yaml)},
      normalize_partitions parts = some parts2 → ∀ {n : String} {w : Yaml},
      (n, w) ∈ parts2 → ∃ v, (n, v) ∈ parts ∧ normalize_partition v = some w := by
  intro parts
  induction parts with
  | nil =>
    intro parts2 h n w hm
    simp only [normalize_partitions] at h
    obtain rfl := Option.some.inj h
    simp at hm
  | cons nv rest ih =>
    intro parts2 h n w hm
    obtain ⟨nm, v⟩ := nv
    simp only [normalize_partitions] at h
    cases hv : normalize_partition v with
    | none => rw [hv] at h; simp at h
    | some w0 =>
      cases hr : normalize_partitions rest with
      | none => rw [hv, hr] at h; simp at h
      | some ws =>
        rw [hv, hr] at h
        obtain rfl := Option.some.inj h
        rcases List.mem_cons.mp hm with he | ht
        · have h1 : n = nm ∧ w = w0 := by
            simpa [Prod.ext_iff] using he
          exact ⟨v, by simp [h1.1], by rw [h1.2]; exact hv⟩
        · obtain ⟨v0, hv0, hnp⟩ := ih hr ht
          exact ⟨v0, List.mem_cons_of_mem _ hv0, hnp⟩

theorem normalize_inv {raw c : Yaml} (h : normalize raw = some c) :
    ∃ kvs parts parts2, raw = .dict kvs ∧
      (alookup kvs "partitions").getD (.dict [("default", .dict [])]) = .dict parts ∧
      normalize_partitions parts = some parts2 ∧
      c = .dict [("host", (alookup kvs "host").getD (.s "localhost")),
                 ("port", (alookup kvs "port").getD (.i 6600)),
                 ("partitions", .dict parts2)] := by
  cases raw
  case dict kvs =>
    simp only [normalize] at h
    split at h
    · rename_i parts heq
      cases hn : normalize_partitions parts with
      | none => rw [hn] at h; simp at h
      | some parts2 =>
        rw [hn] at h
        have h2 := Option.some.inj (by simpa using h)
        exact ⟨kvs, parts, parts2, rfl, heq, hn, h2.symm⟩
    · simp at h
  all_goals simp [normalize] at h

theorem normalized_shape {raw c : Yaml} (h : normalize raw = some c) :
    ∃ hv pv parts2,
      c = .dict [("host", hv), ("port", pv), ("partitions", .dict parts2)] ∧
      normalize_partitions parts2 = some parts2 := by
  obtain ⟨kvs, parts, parts2, -, -, hn, rfl⟩ := normalize_inv h
  exact ⟨_, _, parts2, rfl, normalize_partitions_idem hn⟩

theorem normalize_idem {raw c : Yaml} (h : normalize raw = some c) :
    normalize c = some c := by
  obtain ⟨hv, pv, parts2, rfl, hp⟩ := normalized_shape h
  simp +decide [normalize, alookup, hp]

theorem pyEqB_false_iff (a b : Yaml) : pyEqB a b = false ↔ ¬ pyEq a b := by
  rw [← pyEqB_iff]
  cases pyEqB a b <;> simp

theorem normalize_partitions_keys :
    ∀ {parts parts2 : List (String × Yaml)},
      normalize_partitions parts = some parts2 →
      parts2.map Prod.fst = parts.map Prod.fst := by
  intro parts
  induction parts with
  | nil =>
    intro parts2 h
    simp only [normalize_partitions] at h
    obtain rfl := Option.some.inj h
    simp
  | cons nv rest ih =>
    intro parts2 h
    obtain ⟨nm, v⟩ := nv
    simp only [normalize_partitions] at h
    cases hv : normalize_partition v with
    | none => rw [hv] at h; simp at h
    | some w =>
      cases hr : normalize_partitions rest with
      | none => rw [hv, hr] at h; simp at h
      | some ws =>
        rw [hv, hr] at h
        obtain rfl := Option.some.inj h
        simp [ih hr]

theorem alookup_of_mem_nodup {α : Type} {l : List (String × α)} {n : String} {v : α}
    (hm : (n, v) ∈ l) (hd : (l.map Prod.fst).Nodup) : alookup l n = some v := by
  induction l with
  | nil => simp at hm
  | cons q qs ih =>
    simp only [List.map_cons, List.nodup_cons] at hd
    rcases List.mem_cons.mp hm with he | ht
    · obtain ⟨rfl, rfl⟩ : q.1 = n ∧ q.2 = v := by
        obtain ⟨a, b⟩ := q
        simpa [Prod.ext_iff, eq_comm] using he
      simp [alookup]
    · have hne : ¬ q.1 = n := by
        intro hq
        exact hd.1 (hq ▸ (List.mem_map.mpr ⟨(n, v), ht, rfl⟩))
      simp [alookup, hne, ih ht hd.2]

/-- Canonical form of a normalized config document: the three top-level
entries in alphabetical key order. -/
theorem canon_config_skeleton (hv pv : Yaml) (ps : List (String × Yaml)) :
    canon (.dict [("host", hv), ("port", pv), ("partitions", .dict ps)]) =
      .dict [("host", canon hv), ("partitions", canon (.dict ps)), ("port", canon pv)] := by
  simp +decide [canon, canonPairs, sortPairs, insertSorted]

/-! ## Claim C7: idempotence of default-merging normalization -/

/-- C7: Default-merging normalization of a config document is idempotent:
re-loading an already-normalized document (any output of a successful
load) yields a structurally equal document and triggers no write-back of
the config file; and for every successfully loaded raw document, a
write-back occurs exactly when the normalized document differs (as a
Python dict) from the raw input. -/
theorem C7_normalization_idempotent (raw c : Yaml) (h : normalize raw = some c) :
    sync_load_config c = some (c, false) ∧
    ∀ c0 wb, sync_load_config raw = some (c0, wb) →
      c0 = c ∧ (wb = true ↔ ¬ pyEq c raw) := by
  constructor
  · rw [sync_load_config, normalize_idem h]
    simp [pyEqB_self]
  · intro c0 wb hs
    rw [sync_load_config, h] at hs
    simp only [Option.map] at hs
    have hs2 := Option.some.inj hs
    have hc : c0 = c := (congrArg Prod.fst hs2).symm
    have hw : wb = !pyEqB c raw := (congrArg Prod.snd hs2).symm
    refine ⟨hc, ?_⟩
    rw [hw, ← pyEqB_false_iff]
    cases pyEqB c raw <;> simp

/-- Witness for C7 at a concrete input: the empty document normalizes to
the fully-defaulted config, and re-loading that config is a no-op with no
write-back. -/
theorem C7_witness :
    normalize (.dict []) = some defaults_normalized ∧
    sync_load_config defaults_normalized = some (defaults_normalized, false) :=
  ⟨rfl, (C7_normalization_idempotent (.dict []) defaults_normalized rfl).1⟩

/-! ## Claim C1: the config-change classifier -/

/-- C1: For every pair of previous and new normalized config documents
compared by the config watcher: structurally equal documents raise no
restart signal; when the differing top-level keys are exactly
[partitions], PartitionOnlyConfigChange is raised; when host or port
differs (with or without a partitions difference), BigConfigChange is
raised. -/
theorem C1_config_change_classifier (r1 r2 prev_config cfg : Yaml)
    (h1 : normalize r1 = some prev_config) (h2 : normalize r2 = some cfg) :
    (pyEq cfg prev_config →
      keep_watching_config_file_signal prev_config cfg = none) ∧
    (pyEq (topVal cfg "host") (topVal prev_config "host") →
     pyEq (topVal cfg "port") (topVal prev_config "port") →
     ¬ pyEq (topVal cfg "partitions") (topVal prev_config "partitions") →
     keep_watching_config_file_signal prev_config cfg =
       some .partitionOnlyConfigChange) ∧
    ((¬ pyEq (topVal cfg "host") (topVal prev_config "host") ∨
      ¬ pyEq (topVal cfg "port") (topVal prev_config "port")) →
     keep_watching_config_file_signal prev_config cfg = some .bigConfigChange) := by
  obtain ⟨h1v, p1v, ps1, rfl, -⟩ := normalized_shape h1
  obtain ⟨h2v, p2v, ps2, rfl, -⟩ := normalized_shape h2
  have th2 : topVal (Yaml.dict [("host", h2v), ("port", p2v),
      ("partitions", .dict ps2)]) "host" = h2v := by
    simp +decide [topVal, Yaml.entries, alookup]
  have tp2 : topVal (Yaml.dict [("host", h2v), ("port", p2v),
      ("partitions", .dict ps2)]) "port" = p2v := by
    simp +decide [topVal, Yaml.entries, alookup]
  have ts2 : topVal (Yaml.dict [("host", h2v), ("port", p2v),
      ("partitions", .dict ps2)]) "partitions" = .dict ps2 := by
    simp +decide [topVal, Yaml.entries, alookup]
  have th1 : topVal (Yaml.dict [("host", h1v), ("port", p1v),
      ("partitions", .dict ps1)]) "host" = h1v := by
    simp +decide [topVal, Yaml.entries, alookup]
  have tp1 : topVal (Yaml.dict [("host", h1v), ("port", p1v),
      ("partitions", .dict ps1)]) "port" = p1v := by
    simp +decide [topVal, Yaml.entries, alookup]
  have ts1 : topVal (Yaml.dict [("host", h1v), ("port", p1v),
      ("partitions", .dict ps1)]) "partitions" = .dict ps1 := by
    simp +decide [topVal, Yaml.entries, alookup]
  have skel : pyEqB (Yaml.dict [("host", h2v), ("port", p2v), ("partitions", .dict ps2)])
      (Yaml.dict [("host", h1v), ("port", p1v), ("partitions", .dict ps1)]) =
      (pyEqB h2v h1v && pyEqB (Yaml.dict ps2) (Yaml.dict ps1) && pyEqB p2v p1v) := by
    simp +decide [pyEqB, canon_config_skeleton, Yaml.beq, Yaml.beqPairs, Bool.and_assoc]
  rw [th2, tp2, ts2, th1, tp1, ts1]
  refine ⟨?_, ?_, ?_⟩
  · intro hpy
    have hb : pyEqB (Yaml.dict [("host", h2v), ("port", p2v), ("partitions", .dict ps2)])
        (Yaml.dict [("host", h1v), ("port", p1v), ("partitions", .dict ps1)]) = true :=
      (pyEqB_iff _ _).mpr hpy
    simp [keep_watching_config_file_signal, hb]
  · intro hh hp hps
    have bh : pyEqB h2v h1v = true := (pyEqB_iff _ _).mpr hh
    have bp : pyEqB p2v p1v = true := (pyEqB_iff _ _).mpr hp
    have bps : pyEqB (Yaml.dict ps2) (Yaml.dict ps1) = false := (pyEqB_false_iff _ _).mpr hps
    have hb : pyEqB (Yaml.dict [("host", h2v), ("port", p2v), ("partitions", .dict ps2)])
        (Yaml.dict [("host", h1v), ("port", p1v), ("partitions", .dict ps1)]) = false := by
      rw [skel, bh, bp, bps]
      rfl
    simp +decide [keep_watching_config_file_signal, hb, config_diff_keys,
      Yaml.entries, alookup, bh, bp, bps]
  · intro hor
    rcases hor with hh | hp
    · have bh : pyEqB h2v h1v = false := (pyEqB_false_iff _ _).mpr hh
      have hb : pyEqB (Yaml.dict [("host", h2v), ("port", p2v), ("partitions", .dict ps2)])
          (Yaml.dict [("host", h1v), ("port", p1v), ("partitions", .dict ps1)]) = false := by
        rw [skel, bh]
        rfl
      simp +decide [keep_watching_config_file_signal, hb, config_diff_keys,
        Yaml.entries, alookup, bh]
    · have bp : pyEqB p2v p1v = false := (pyEqB_false_iff _ _).mpr hp
      have hb : pyEqB (Yaml.dict [("host", h2v), ("port", p2v), ("partitions", .dict ps2)])
          (Yaml.dict [("host", h1v), ("port", p1v), ("partitions", .dict ps1)]) = false := by
        rw [skel, bp]
        simp
      by_cases bh : pyEqB h2v h1v = true
      · simp +decide [keep_watching_config_file_signal, hb, config_diff_keys,
          Yaml.entries, alookup, bh, bp]
      · rw [Bool.not_eq_true] at bh
        simp +decide [keep_watching_config_file_signal, hb, config_diff_keys,
          Yaml.entries, alookup, bh, bp]

/-- Witness for C1 at concrete inputs: a reload that only changes min-len
of the default partition raises exactly PartitionOnlyConfigChange. -/
theorem C1_witness :
    keep_watching_config_file_signal defaults_normalized
      (Yaml.dict [("host", .s "localhost"), ("port", .i 6600),
        ("partitions", .dict [("default", .dict
          [("enabled", .b true), ("min-len", .i 5), ("max-hist-len", .inf),
           ("clear-when-stopped", .b false), ("source-playlists", .dict [])])])]) =
      some .partitionOnlyConfigChange :=
  (C1_config_change_classifier (.dict [])
    (.dict [("partitions", .dict [("default", .dict [("min-len", .i 5)])])])
    defaults_normalized
    (Yaml.dict [("host", .s "localhost"), ("port", .i 6600),
      ("partitions", .dict [("default", .dict
        [("enabled", .b true), ("min-len", .i 5), ("max-hist-len", .inf),
         ("clear-when-stopped", .b false), ("source-playlists", .dict [])])])])
    rfl rfl).2.1
    (by rfl)
    (by rfl)
    (by simp +decide [pyEq, topVal, Yaml.entries, alookup, defaults_normalized,
          canon, canonPairs, canonList, sortPairs, insertSorted])

/-! ## Claim C10: normalization silently discards unrecognized keys -/

/-- C10: A successful load produces a document with exactly the top-level
keys host, port, partitions, and per partition exactly the five known
keys; consequently, for a well-formed raw file, a raw document holding any
other key (at the top level or inside a partition entry) differs from its
normalization, which triggers the write-back that deletes the unknown key
from the persisted file.  A missing config file is treated as the empty
document, yielding the pure-defaults config (with its default partition)
and a write-back that creates the file. -/
theorem C10_unknown_keys_discarded (raw c : Yaml) (wb : Bool)
    (h : sync_load_config raw = some (c, wb)) :
    topKeys c = ["host", "port", "partitions"] ∧
    (∀ nv ∈ partitionsOf c, topKeys nv.2 = partition_keys) ∧
    (rawWFB raw = true →
      ((∃ k ∈ topKeys raw, k ∉ (["host", "port", "partitions"] : List String)) ∨
       (∃ nv ∈ partitionsOf raw, ∃ j ∈ topKeys nv.2, j ∉ partition_keys)) →
      wb = true) ∧
    load_config_file none = some (defaults_normalized, true) := by
  have hmain : normalize raw = some c ∧ wb = !pyEqB c raw := by
    rw [sync_load_config] at h
    cases hnr : normalize raw with
    | none => rw [hnr] at h; exact absurd h (by simp)
    | some c1 =>
      rw [hnr] at h
      simp only [Option.map] at h
      have hs2 := Option.some.inj h
      have hc : c1 = c := congrArg Prod.fst hs2
      have hwb : wb = !pyEqB c1 raw := (congrArg Prod.snd hs2).symm
      subst hc
      exact ⟨rfl, hwb⟩
  obtain ⟨hn1, hw⟩ := hmain
  obtain ⟨kvs, parts, parts2, rfl, heq, hnp, rfl⟩ := normalize_inv hn1
  refine ⟨by simp [topKeys], ?_, ?_, ?_⟩
  · intro nv hmem
    obtain ⟨n, w⟩ := nv
    have hpc : partitionsOf (Yaml.dict
        [("host", (alookup kvs "host").getD (.s "localhost")),
         ("port", (alookup kvs "port").getD (.i 6600)),
         ("partitions", .dict parts2)]) = parts2 := by
      simp +decide [partitionsOf, Yaml.entries, alookup]
    rw [hpc] at hmem
    obtain ⟨v, -, hv⟩ := normalize_partitions_mem hnp hmem
    obtain ⟨e, ml, mh, cs, sp, rfl⟩ := normalize_partition_shape hv
    simp [topKeys, partition_keys]
  · intro hwf hjunk
    have hndc : ((([("host", (alookup kvs "host").getD (.s "localhost")),
         ("port", (alookup kvs "port").getD (.i 6600)),
         ("partitions", Yaml.dict parts2)]) : List (String × Yaml)).map Prod.fst).Nodup := by
      simp +decide
    rw [rawWFB, Bool.and_eq_true] at hwf
    obtain ⟨hnd0, hwf2⟩ := hwf
    rw [decide_eq_true_eq] at hnd0
    have hpf : pyEqB (Yaml.dict
        [("host", (alookup kvs "host").getD (.s "localhost")),
         ("port", (alookup kvs "port").getD (.i 6600)),
         ("partitions", .dict parts2)]) (.dict kvs) = false := by
      rw [pyEqB_false_iff]
      intro hpe
      rw [pyEq] at hpe
      rcases hjunk with ⟨k, hkmem, hknot⟩ | ⟨⟨n, pv⟩, hmem, j, hjmem, hjnot⟩
      · simp only [topKeys] at hkmem
        have := (canon_dict_eq_keys hpe k).mpr hkmem
        simp at this
        rcases this with rfl | rfl | rfl <;> simp at hknot
      · cases halk : alookup kvs "partitions" with
        | none => simp [partitionsOf, Yaml.entries, halk] at hmem
        | some v =>
          have hveq : v = .dict parts := by
            rw [halk] at heq
            simpa using heq
          subst hveq
          have hmem2 : (n, pv) ∈ parts := by
            simpa [partitionsOf, Yaml.entries, halk] using hmem
          rw [halk] at hwf2
          simp only [Bool.and_eq_true, decide_eq_true_eq] at hwf2
          have hndp : (parts.map Prod.fst).Nodup := hwf2.1
          have hndp2 : (parts2.map Prod.fst).Nodup := by
            rw [normalize_partitions_keys hnp]
            exact hndp
          have hA := canon_dict_eq_alookup hpe hndc hnd0 "partitions"
          rw [halk] at hA
          have hA2 : canon (.dict parts2) = canon (.dict parts) := by
            have hl : alookup ([("host", (alookup kvs "host").getD (.s "localhost")),
                ("port", (alookup kvs "port").getD (.i 6600)),
                ("partitions", Yaml.dict parts2)] : List (String × Yaml)) "partitions" =
                some (.dict parts2) := by
              simp +decide [alookup]
            rw [hl] at hA
            simpa using hA
          have hB := canon_dict_eq_alookup hA2 hndp2 hndp n
          have hlp : alookup parts n = some pv := alookup_of_mem_nodup hmem2 hndp
          have hlp2 : alookup parts2 n = normalize_partition pv := by
            rw [normalize_partitions_alookup hnp n, hlp]
            rfl
          rw [hlp, hlp2] at hB
          cases hnpv : normalize_partition pv with
          | none => rw [hnpv] at hB; simp at hB
          | some w =>
            rw [hnpv] at hB
            simp only [Option.map] at hB
            have hcw : canon w = canon pv := Option.some.inj hB
            obtain ⟨e, ml, mh, cs, sp, rfl⟩ := normalize_partition_shape hnpv
            have hpvd : ∃ d, pv = Yaml.dict d := by
              cases pv <;> simp [normalize_partition] at hnpv
              exact ⟨_, rfl⟩
            obtain ⟨d, rfl⟩ := hpvd
            have hk := (canon_dict_eq_keys hcw j).mpr (by simpa [topKeys] using hjmem)
            simp at hk
            rcases hk with rfl | rfl | rfl | rfl | rfl <;>
              simp [partition_keys] at hjnot
    rw [hw, hpf]
    rfl
  · simp +decide [load_config_file, sync_load_config, normalize, alookup,
      normalize_partitions, normalize_partition, get_partition_config_defaults,
      pyEqB, canon, canonPairs, canonList, sortPairs, insertSorted,
      Yaml.beq, defaults_normalized]

/-- Witness for C10 at a concrete input: a raw file holding only the
unknown key junk loads as the pure-defaults config with a write-back, and
the normalized result has exactly the known top-level keys. -/
theorem C10_witness :
    sync_load_config (.dict [("junk", .b true)]) = some (defaults_normalized, true) ∧
    rawWFB (.dict [("junk", .b true)]) = true ∧
    topKeys defaults_normalized = ["host", "port", "partitions"] := by
  have h : sync_load_config (.dict [("junk", .b true)]) =
      some (defaults_normalized, true) := by
    simp +decide [sync_load_config, normalize, alookup,
      normalize_partitions, normalize_partition, get_partition_config_defaults,
      pyEqB, canon, canonPairs, canonList, sortPairs, insertSorted,
      Yaml.beq, defaults_normalized]
  exact ⟨h, by decide,
    (C10_unknown_keys_discarded (.dict [("junk", .b true)]) defaults_normalized true h).1⟩

/-! ## Claim C2: the dynamic-mode gate -/

set_option maxRecDepth 2000 in
/-- Counterexample to C2 as stated: the claim says a status missing any of
random, repeat, single makes the pass suspended, but with random = 0 and
repeat = 0 the single key is never read (the Python conjunction
short-circuits), so a status lacking single leaves dynamic queueing
enabled and the pass trims and fills. -/
theorem C2_counterexample :
    is_dynamic_enabled ⟨some 0, some 0, none, some "play", some 0, some 0⟩ = true ∧
    update_queue ⟨true, 1, .inf, false, .str "A"⟩
      ⟨some 0, some 0, none, some "play", some 0, some 0⟩
      ⟨some 0, some 0, none, some "play", some 0, some 0⟩
      [] (.const "A") [("A", ⟨"2024", ["t1"]⟩)] (fun _ => [(0, 0)]) ≠
      some .suspended := by
  refine ⟨rfl, ?_⟩
  rw [update_queue]
  simp +decide [is_dynamic_enabled, remove_old_tracks, numeric_trim,
    clear_when_stopped_check, apply_trim, add_new_tracks, choose_new_track,
    Picker.resolve, alookup]

/-- C2 amended: dynamic queueing is enabled for a pass exactly when random
is present and zero and either repeat is present and zero, or repeat is
present and nonzero with single present and nonzero.  In particular a
missing random or repeat suspends the pass, and a missing single suspends
it only when it is actually read (random zero, repeat nonzero); with
random and repeat both zero a missing single does not suspend.  A
suspended pass performs neither trimming nor filling, and the pass is
suspended exactly when the gate is closed. -/
theorem C2_dynamic_mode_gate (status : PlayerStatus) :
    (is_dynamic_enabled status = true ↔
      (status.random = some 0 ∧
        (status.«repeat» = some 0 ∨
          (∃ p, status.«repeat» = some p ∧ p ≠ 0 ∧
            ∃ sg, status.single = some sg ∧ sg ≠ 0)))) ∧
    ∀ (config : PartitionConfig) (prev_status : PlayerStatus)
      (queue : List String) (picker : Picker)
      (pls : List (String × StoredPlaylist)) (oracle : Nat → List (Nat × Nat)),
      (update_queue config status prev_status queue picker pls oracle =
          some .suspended ↔ is_dynamic_enabled status = false) := by
  constructor
  · obtain ⟨r, p, sg, stt, so, pl⟩ := status
    simp only [is_dynamic_enabled]
    cases r with
    | none => simp
    | some rv =>
      by_cases hrv : rv = 0
      · subst hrv
        cases p with
        | none => simp
        | some pv =>
          by_cases hpv : pv = 0
          · subst hpv
            simp
          · cases sg with
            | none => simp [hpv]
            | some sgv =>
              by_cases hsg : sgv = 0
              · subst hsg
                simp [hpv]
              · simp [hpv, hsg]
      · simp [hrv]
  · intro config prev_status queue picker pls oracle
    constructor
    · intro hs
      cases hg : is_dynamic_enabled status
      · rfl
      · exfalso
        rw [update_queue] at hs
        simp only [hg, if_true] at hs
        split at hs
        · simp at hs
        · split at hs <;> simp at hs
    · intro hg
      rw [update_queue]
      simp [hg]

/-! ## Claim C3: the numeric trim step -/

/-- C3: In a trim step where the clear-when-stopped clear did not fire:
with no currently playing index the numeric trim is skipped; with a
playing index i and max-hist-len infinity nothing is ever deleted; with a
finite max-hist-len m, letting excess = i - m, nothing is deleted when
excess is not positive, and exactly the queue entries at indices
[0, excess) are deleted (the rest surviving in order) when it is. -/
theorem C3_numeric_trim (config : PartitionConfig)
    (status prev_status : PlayerStatus) (queue : List String)
    (hnc : clear_when_stopped_check config status prev_status = .ok false) :
    (status.song = none →
      remove_old_tracks config status prev_status = .ok .noop) ∧
    (∀ i : Nat, status.song = some i → config.max_hist_len = .inf →
      remove_old_tracks config status prev_status = .ok .noop) ∧
    (∀ (i : Nat) (m : Int), status.song = some i → config.max_hist_len = .fin m →
      (((i : Int) - m ≤ 0 →
        remove_old_tracks config status prev_status = .ok .noop) ∧
       ((i : Int) - m > 0 →
        remove_old_tracks config status prev_status = .ok (.deleted ((i : Int) - m)) ∧
        apply_trim queue (.deleted ((i : Int) - m)) =
          queue.drop ((i : Int) - m).toNat))) := by
  have hred : remove_old_tracks config status prev_status =
      numeric_trim config status := by
    rw [remove_old_tracks, hnc]
  refine ⟨?_, ?_, ?_⟩
  · intro hsong
    rw [hred, numeric_trim, hsong]
  · intro i hsong hinf
    rw [hred, numeric_trim, hsong, hinf]
  · intro i m hsong hfin
    constructor
    · intro hle
      rw [hred, numeric_trim, hsong, hfin]
      simp only []
      rw [if_neg (by omega)]
    · intro hgt
      refine ⟨?_, rfl⟩
      rw [hred, numeric_trim, hsong, hfin]
      simp only []
      rw [if_pos (by omega)]

/-- Witness for C3 at the concrete input from the spec: max-hist-len 3 and
playing index 7 delete exactly the first 4 entries of an 8-element queue;
and with max-hist-len infinity nothing is deleted at the same index. -/
theorem C3_witness :
    remove_old_tracks ⟨true, 10, .fin 3, false, .str "A"⟩
      ⟨some 0, some 0, some 0, some "play", some 7, some 8⟩
      ⟨some 0, some 0, some 0, some "play", some 6, some 8⟩ =
      .ok (.deleted 4) ∧
    apply_trim ["q0", "q1", "q2", "q3", "q4", "q5", "q6", "q7"] (.deleted 4) =
      ["q4", "q5", "q6", "q7"] ∧
    remove_old_tracks ⟨true, 10, .inf, false, .str "A"⟩
      ⟨some 0, some 0, some 0, some "play", some 7, some 8⟩
      ⟨some 0, some 0, some 0, some "play", some 6, some 8⟩ = .ok .noop := by
  have h1 := ((C3_numeric_trim ⟨true, 10, .fin 3, false, .str "A"⟩
      ⟨some 0, some 0, some 0, some "play", some 7, some 8⟩
      ⟨some 0, some 0, some 0, some "play", some 6, some 8⟩
      ["q0", "q1", "q2", "q3", "q4", "q5", "q6", "q7"] (by rfl)).2.2
      7 3 rfl rfl).2 (by decide)
  have h2 := (C3_numeric_trim ⟨true, 10, .inf, false, .str "A"⟩
      ⟨some 0, some 0, some 0, some "play", some 7, some 8⟩
      ⟨some 0, some 0, some 0, some "play", some 6, some 8⟩
      [] (by rfl)).2.1 7 rfl rfl
  refine ⟨by exact_mod_cast h1.1, ?_, h2⟩
  have h3 := h1.2
  norm_num at h3 ⊢
  exact h3

/-! ## Claim C4: clear-when-stopped -/

/-- C4: With clear-when-stopped set and both state keys present, the trim
step clears the whole queue (and skips the numeric trim) exactly when the
current state is stopped and the previous one was not; in particular a
stopped-to-stopped transition never clears, and on the first pass, where
the previous snapshot equals the current one, no clear fires. -/
theorem numeric_trim_ok (config : PartitionConfig) (status : PlayerStatus) :
    ∃ a, numeric_trim config status = .ok a ∧ a ≠ .cleared := by
  rw [numeric_trim]
  cases status.song with
  | none => exact ⟨.noop, rfl, by simp⟩
  | some i =>
    cases config.max_hist_len with
    | inf => exact ⟨.noop, rfl, by simp⟩
    | fin m =>
      by_cases hgt : (i : Int) - m > 0
      · exact ⟨.deleted ((i : Int) - m), by simp [hgt], by simp⟩
      · exact ⟨.noop, by simp [hgt], by simp⟩

/-- C4: With clear-when-stopped set and both state keys present, the trim
step clears the whole queue (and skips the numeric trim) exactly when the
current state is stopped and the previous one was not; in particular a
stopped-to-stopped transition never clears, and on the first pass, where
the previous snapshot equals the current one, no clear fires. -/
theorem C4_clear_when_stopped (config : PartitionConfig)
    (status prev_status : PlayerStatus) (st pst : String)
    (hc : config.clear_when_stopped = true)
    (hs : status.state = some st) (hp : prev_status.state = some pst) :
    (remove_old_tracks config status prev_status = .ok .cleared ↔
      (st = "stop" ∧ pst ≠ "stop")) ∧
    (∀ queue : List String, apply_trim queue .cleared = []) ∧
    (∀ status0 : PlayerStatus,
      remove_old_tracks config status0 status0 ≠ .ok .cleared) := by
  refine ⟨?_, fun queue => rfl, ?_⟩
  · simp only [remove_old_tracks, clear_when_stopped_check, hc, if_true, hs, hp]
    by_cases hst : st = "stop"
    · by_cases hpst : pst = "stop"
      · obtain ⟨a, ha, hanc⟩ := numeric_trim_ok config status
        simp [hst, hpst, ha, hanc]
      · simp [hst, hpst]
    · obtain ⟨a, ha, hanc⟩ := numeric_trim_ok config status
      simp [hst, ha, hanc]
  · intro status0 hcl
    obtain ⟨a, ha, hanc⟩ := numeric_trim_ok config status0
    rw [remove_old_tracks] at hcl
    cases hck : clear_when_stopped_check config status0 status0 with
    | error e => rw [hck] at hcl; simp at hcl
    | ok b =>
      cases b with
      | true =>
        rw [clear_when_stopped_check] at hck
        simp only [hc, if_true] at hck
        cases hst0 : status0.state with
        | none => rw [hst0] at hck; simp at hck
        | some s0 =>
          rw [hst0] at hck
          by_cases hs0 : s0 = "stop" <;> simp [hs0] at hck
      | false =>
        rw [hck] at hcl
        simp [ha, hanc] at hcl

/-- Witness for C4 at concrete inputs: a play-to-stop transition with
clear-when-stopped set clears the queue, and a stop-to-stop transition
does not clear. -/
theorem C4_witness :
    remove_old_tracks ⟨true, 10, .fin 3, true, .str "A"⟩
      ⟨some 0, some 0, some 0, some "stop", some 7, some 8⟩
      ⟨some 0, some 0, some 0, some "play", some 6, some 8⟩ = .ok .cleared ∧
    remove_old_tracks ⟨true, 10, .fin 3, true, .str "A"⟩
      ⟨some 0, some 0, some 0, some "stop", some 7, some 8⟩
      ⟨some 0, some 0, some 0, some "stop", some 6, some 8⟩ ≠ .ok .cleared := by
  constructor
  · exact ((C4_clear_when_stopped ⟨true, 10, .fin 3, true, .str "A"⟩
      ⟨some 0, some 0, some 0, some "stop", some 7, some 8⟩
      ⟨some 0, some 0, some 0, some "play", some 6, some 8⟩
      "stop" "play" rfl rfl rfl).1).mpr ⟨rfl, by decide⟩
  · intro hcl
    have := ((C4_clear_when_stopped ⟨true, 10, .fin 3, true, .str "A"⟩
      ⟨some 0, some 0, some 0, some "stop", some 7, some 8⟩
      ⟨some 0, some 0, some 0, some "stop", some 6, some 8⟩
      "stop" "stop" rfl rfl rfl).1).mp hcl
    exact this.2 rfl

/-! ## Claim C5: the fill step -/

theorem getD_mem_of_ne_nil {l : List String} (h : l ≠ []) (i : Nat) :
    l.getD (i % l.length) "" ∈ l := by
  have hlen : 0 < l.length := List.length_pos.mpr h
  have hi : i % l.length < l.length := Nat.mod_lt _ hlen
  rw [List.getD_eq_getElem?_getD, List.getElem?_eq_getElem hi]
  exact List.getElem_mem hi

/-- C5: When the picker always resolves to a playlist that is cached and
nonempty, and each append raises the reported queue length by one, the
fill step appends tracks while the length is below min-len and stops as
soon as it reaches it: starting from length len0 it appends exactly
max(min-len - len0, 0) tracks, each drawn from that playlist. -/
theorem C5_fill_step (min_len : Int) (len0 : Nat) (name : String)
    (pl : StoredPlaylist) (pls : List (String × StoredPlaylist))
    (oracle : Nat → List (Nat × Nat))
    (hlk : alookup pls name = some pl) (hne : pl.tracks ≠ [])
    (hor : ∀ i, oracle i ≠ []) :
    ∃ ts, add_new_tracks min_len (.const name) pls oracle len0 = some ts ∧
      ts.length = (min_len - (len0 : Int)).toNat ∧
      ∀ t ∈ ts, t ∈ pl.tracks := by
  have main : ∀ (k : Nat) (len1 : Nat), (min_len - (len1 : Int)).toNat = k →
      ∃ ts, add_new_tracks min_len (.const name) pls oracle len1 = some ts ∧
        ts.length = k ∧ ∀ t ∈ ts, t ∈ pl.tracks := by
    intro k
    induction k with
    | zero =>
      intro len1 hk
      have hge : ¬ ((len1 : Int) < min_len) := by omega
      rw [add_new_tracks, if_neg hge]
      exact ⟨[], rfl, rfl, by simp⟩
    | succ k ih =>
      intro len1 hk
      have hlt : (len1 : Int) < min_len := by omega
      rw [add_new_tracks, if_pos hlt]
      obtain ⟨p, rest, hcons⟩ : ∃ p rest, oracle len1 = p :: rest := by
        cases ho : oracle len1 with
        | nil => exact absurd ho (hor len1)
        | cons p rest => exact ⟨p, rest, rfl⟩
      obtain ⟨rn, rt⟩ := p
      rw [hcons]
      have hie : pl.tracks.isEmpty = false := by
        cases h2 : pl.tracks with
        | nil => exact absurd h2 hne
        | cons a as => rfl
      rw [choose_new_track]
      simp only [Picker.resolve, hlk, hie, Bool.false_eq_true, if_false]
      obtain ⟨ts, hts, hlen, hmem⟩ := ih (len1 + 1) (by omega)
      rw [hts]
      refine ⟨pl.tracks.getD (rt % pl.tracks.length) "" :: ts, rfl, by simp [hlen], ?_⟩
      intro t ht
      rcases List.mem_cons.mp ht with rfl | ht2
      · exact getD_mem_of_ne_nil hne rt
      · exact hmem t ht2
  exact main ((min_len - (len0 : Int)).toNat) len0 rfl

/-- Witness for C5 at the concrete input from the spec: min-len 10 and a
queue of length 6 with a nonempty source playlist gain exactly 4 tracks,
all from that playlist. -/
theorem C5_witness :
    ∃ ts, add_new_tracks 10 (.const "A") [("A", ⟨"2024", ["a", "b"]⟩)]
      (fun _ => [(0, 0)]) 6 = some ts ∧
      ts.length = 4 ∧ ∀ t ∈ ts, t ∈ ["a", "b"] := by
  obtain ⟨ts, h1, h2, h3⟩ := C5_fill_step 10 6 "A" ⟨"2024", ["a", "b"]⟩
    [("A", ⟨"2024", ["a", "b"]⟩)] (fun _ => [(0, 0)]) (by rfl) (by decide)
    (fun i => by simp)
  exact ⟨ts, h1, h2.trans (by decide), h3⟩

/-! ## Claim C6: partition joining -/

/-- C6: The select/create alternation of enter_partition is bounded to 3
rounds.  A NotFound select followed by a successful create and a
successful re-select joins within the bound (3 server commands); a server
answering NotFound to every select and success-or-AlreadyExists to every
create for 3 full rounds exhausts the budget and raises the fatal
RuntimeError; a select error other than NotFound, or a create error other
than AlreadyExists, is re-raised immediately without any retry. -/
theorem C6_enter_partition (sel cre : Nat → CmdResult) :
    (sel 0 = .ackNoExist → cre 0 = .ok → sel 1 = .ok →
      enter_partition sel cre = (.joined, 3)) ∧
    ((∀ i < 3, sel i = .ackNoExist) →
     (∀ i < 3, cre i = .ok ∨ cre i = .ackExist) →
      enter_partition sel cre = (.failedRuntimeError, 6)) ∧
    (∀ e : CmdResult, sel 0 = e → e ≠ .ok → e ≠ .ackNoExist →
      enter_partition sel cre = (.errored e, 1)) ∧
    (∀ e : CmdResult, sel 0 = .ackNoExist → cre 0 = e → e ≠ .ok → e ≠ .ackExist →
      enter_partition sel cre = (.errored e, 2)) := by
  refine ⟨?_, ?_, ?_, ?_⟩
  · intro hs0 hc0 hs1
    rw [enter_partition, enter_partition_go, hs0, hc0, enter_partition_go, hs1]
  · intro hsel hcre
    have hs0 := hsel 0 (by omega)
    have hs1 := hsel 1 (by omega)
    have hs2 := hsel 2 (by omega)
    rw [enter_partition]
    rcases hcre 0 (by omega) with hc0 | hc0 <;>
      rcases hcre 1 (by omega) with hc1 | hc1 <;>
        rcases hcre 2 (by omega) with hc2 | hc2 <;>
          rw [enter_partition_go, hs0, hc0, enter_partition_go, hs1, hc1,
            enter_partition_go, hs2, hc2, enter_partition_go]
  · intro e hs0 hok hne
    rw [enter_partition, enter_partition_go, hs0]
    cases e with
    | ok => exact absurd rfl hok
    | ackNoExist => exact absurd rfl hne
    | ackExist => rfl
    | ackOther c => rfl
  · intro e hs0 hc0 hok hne
    rw [enter_partition, enter_partition_go, hs0, hc0]
    cases e with
    | ok => exact absurd rfl hok
    | ackExist => exact absurd rfl hne
    | ackNoExist => rfl
    | ackOther c => rfl

/-- Witness for C6 at concrete server behaviours: the NotFound, create,
re-select run joins with 3 commands; the always-NotFound, always-exists
run exhausts the 3 rounds fatally; an immediate permission error stops
after 1 command. -/
theorem C6_witness :
    enter_partition (fun i => if i = 0 then .ackNoExist else .ok) (fun _ => .ok) =
      (.joined, 3) ∧
    enter_partition (fun _ => .ackNoExist) (fun _ => .ackExist) =
      (.failedRuntimeError, 6) ∧
    enter_partition (fun _ => .ackOther 4) (fun _ => .ok) = (.errored (.ackOther 4), 1) := by
  refine ⟨?_, ?_, ?_⟩
  · exact (C6_enter_partition (fun i => if i = 0 then .ackNoExist else .ok)
      (fun _ => .ok)).1 rfl rfl rfl
  · exact (C6_enter_partition (fun _ => .ackNoExist) (fun _ => .ackExist)).2.1
      (fun i _ => rfl) (fun i _ => Or.inr rfl)
  · exact (C6_enter_partition (fun _ => .ackOther 4) (fun _ => .ok)).2.2.1
      (.ackOther 4) rfl (by decide) (by decide)

/-! ## Claim C8: missing status keys -/

/-- Counterexample to C8 as stated: a status snapshot missing the state
key while clear-when-stopped is enabled raises an uncaught KeyError in
remove_old_tracks, which is fatal to the partition supervisor (the pass
ends with fatalKeyError instead of being skipped or retried). -/
theorem C8_counterexample :
    remove_old_tracks ⟨true, 10, .inf, true, .str "A"⟩
      ⟨some 0, some 0, some 1, none, some 5, some 3⟩
      ⟨some 0, some 0, some 1, some "play", some 5, some 3⟩ = .error "state" ∧
    update_queue ⟨true, 10, .inf, true, .str "A"⟩
      ⟨some 0, some 0, some 1, none, some 5, some 3⟩
      ⟨some 0, some 0, some 1, some "play", some 5, some 3⟩
      [] (.const "A") [("A", ⟨"2024", ["a"]⟩)] (fun _ => [(0, 0)]) =
      some (.fatalKeyError "state") := by
  constructor
  · rfl
  · rw [update_queue]
    rfl

/-- C8 amended: a missing song key during the numeric trim is skipped
(never fatal), and with clear-when-stopped disabled the trim step never
raises at all; but when clear-when-stopped is enabled, a missing state key
in the current snapshot (or in the previous one while the current state is
stopped) raises an uncaught KeyError, which is fatal to the partition
supervisor. -/
theorem C8_missing_status_keys (config : PartitionConfig)
    (status prev_status : PlayerStatus) :
    (config.clear_when_stopped = false →
      ∃ a, remove_old_tracks config status prev_status = .ok a) ∧
    (config.clear_when_stopped = false → status.song = none →
      remove_old_tracks config status prev_status = .ok .noop) ∧
    (config.clear_when_stopped = true → status.state = none →
      remove_old_tracks config status prev_status = .error "state") := by
  refine ⟨?_, ?_, ?_⟩
  · intro hc
    obtain ⟨a, ha, -⟩ := numeric_trim_ok config status
    refine ⟨a, ?_⟩
    rw [remove_old_tracks, clear_when_stopped_check, hc]
    simpa using ha
  · intro hc hsong
    rw [remove_old_tracks, clear_when_stopped_check, hc]
    simp only [Bool.false_eq_true, if_false]
    rw [numeric_trim, hsong]
  · intro hc hstate
    rw [remove_old_tracks, clear_when_stopped_check, hc]
    simp only [if_true]
    rw [hstate]

/-- Witness for C8 at concrete inputs: with clear-when-stopped disabled a
status missing the song key makes the trim a harmless no-op, and with it
enabled a status missing the state key errors. -/
theorem C8_witness :
    remove_old_tracks ⟨true, 10, .fin 3, false, .str "A"⟩
      ⟨some 0, some 0, some 1, none, none, some 3⟩
      ⟨some 0, some 0, some 1, none, none, some 3⟩ = .ok .noop ∧
    remove_old_tracks ⟨true, 10, .fin 3, true, .str "A"⟩
      ⟨some 0, some 0, some 1, none, none, some 3⟩
      ⟨some 0, some 0, some 1, none, none, some 3⟩ = .error "state" := by
  constructor
  · exact (C8_missing_status_keys ⟨true, 10, .fin 3, false, .str "A"⟩
      ⟨some 0, some 0, some 1, none, none, some 3⟩
      ⟨some 0, some 0, some 1, none, none, some 3⟩).2.1 rfl rfl
  · exact (C8_missing_status_keys ⟨true, 10, .fin 3, true, .str "A"⟩
      ⟨some 0, some 0, some 1, none, none, some 3⟩
      ⟨some 0, some 0, some 1, none, none, some 3⟩).2.2 rfl rfl

/-! ## Claim C9: disabled partitions are a no-op -/

/-- C9: A partition whose config has enabled false, or whose
source-playlists value is falsy (None, the empty string, the empty list
or the empty mapping), makes the monitor return immediately: no
connection, no partition join, no queue mutation. -/
theorem C9_disabled_partition_noop (config : PartitionConfig)
    (sel cre : Nat → CmdResult) (status0 : PlayerStatus)
    (statuses : List PlayerStatus) (queue0 : List String)
    (pls : List (String × StoredPlaylist)) (oracle : Nat → List (Nat × Nat))
    (h : config.enabled = false ∨ config.source_playlists = .nul ∨
      config.source_playlists = .str "" ∨ config.source_playlists = .list [] ∨
      config.source_playlists = .dict []) :
    PartitionMonitor_run config sel cre status0 statuses queue0 pls oracle = [] := by
  rw [PartitionMonitor_run]
  rcases h with h | h | h | h | h
  · simp [h]
  · simp [h, make_stored_playlist_picker, SourceSpec.truthy]
  · simp [h, make_stored_playlist_picker, SourceSpec.truthy]
  · simp [h, make_stored_playlist_picker, SourceSpec.truthy]
  · simp [h, make_stored_playlist_picker, SourceSpec.truthy]

/-- Witness for C9 at concrete inputs: a disabled partition and an
empty-mapping source spec both produce an empty effect trace. -/
theorem C9_witness :
    PartitionMonitor_run ⟨false, 10, .inf, false, .str "A"⟩ (fun _ => .ok)
      (fun _ => .ok) ⟨some 0, some 0, some 0, some "play", some 0, some 0⟩
      [] [] [] (fun _ => []) = [] ∧
    PartitionMonitor_run ⟨true, 10, .inf, false, .dict []⟩ (fun _ => .ok)
      (fun _ => .ok) ⟨some 0, some 0, some 0, some "play", some 0, some 0⟩
      [] [] [] (fun _ => []) = [] := by
  constructor
  · exact C9_disabled_partition_noop ⟨false, 10, .inf, false, .str "A"⟩ _ _ _ _ _ _ _
      (Or.inl rfl)
  · exact C9_disabled_partition_noop ⟨true, 10, .inf, false, .dict []⟩ _ _ _ _ _ _ _
      (Or.inr (Or.inr (Or.inr (Or.inr rfl))))

end Mpddq
